import Mathlib

/-
Verification of the karaoke-timing transcoder of KaraLuxer (src/karaluxer.py).

The core under study is the function parse_subtitles (lines 19-73 of
karaluxer.py): it filters the Dialogue events of an ass subtitle file,
scans each dialogue line's styled text for karaoke timing tags with
TIMING_REGEX, and converts the scanned (duration, sound) pairs into
ultrastar note and line-separator records while threading a beat cursor.

The embedding below mirrors that code:
  * markerDigits, matchKaraokeText, matchTimingOnly and findAll embed the
    left-to-right, non-overlapping scan of
    TIMING_REGEX = (\{\\(?:k|kf|ko|K)[0-9]+\}[a-z|A-Z]*)|({\\(?:k|kf|ko|K)[0-9]+[^}]*\})
    as performed by re.findall: at each position the first alternative
    (karaoke tag followed by a letter run, group 1) is tried first, then the
    second (tag body with extra non-brace content, group 2); on failure the
    scan advances one character.  Each returned pair carries the text of the
    matched group, the other component being empty, exactly like re.findall.
  * buildSyllables embeds the loop of lines 45-56: group-1 matches are split
    at the brace into a timing part and a sound part, group-2 matches are
    split at the backslashes, the timing part is stripped to its digits and
    read as a decimal number, and the unreachable else branch records its
    warning message.
  * durBeats embeds line 61.  The Python source computes
    floor((duration_cs / 100) * BEATS_PER_SECOND) with IEEE doubles; the
    embedding uses the exact value of that expression over the rationals,
    duration_cs * BEATS_PER_SECOND / 100 in natural division.
  * lineNotes and finalBeat embed the two effects of the loop of lines
    59-68 (note emission and cursor advance); lineRecords appends the line
    separator of line 71; renderRec embeds the NOTE_LINE and SEP_LINE
    templates of lines 13-14 (note both end in a space then a newline).
  * parse_subtitles embeds the outer loop of lines 39-71, with the start
    time of a dialogue line modelled as an exact rational number of seconds
    (line.start.total_seconds()).
-/

namespace KaraLuxer

/-- Global BEATS_PER_SECOND of karaluxer.py line 15. -/
def BEATS_PER_SECOND : Nat := 20

/-- Character class [0-9] of TIMING_REGEX. -/
def isDigitChar (c : Char) : Bool := '0' ≤ c && c ≤ '9'

/-- Character class [a-z|A-Z] of TIMING_REGEX (it contains the bar). -/
def isSyllableChar (c : Char) : Bool :=
  ('a' ≤ c && c ≤ 'z') || c = '|' || ('A' ≤ c && c ≤ 'Z')

/-- Tests whether a character list starts with a decimal digit. -/
def headIsDigit : List Char → Bool
  | [] => false
  | c :: _ => isDigitChar c

/-- Embeds the subpattern (?:k|kf|ko|K)[0-9]+ of TIMING_REGEX with the
regex engine's ordered alternation: the alternative k is tried first, then
kf, then ko, then K, each followed by a greedy non-empty digit run.
Returns the matched characters and the remaining input. -/
def markerDigits : List Char → Option (List Char × List Char)
  | 'k' :: rest =>
    if headIsDigit rest then
      some ('k' :: rest.takeWhile isDigitChar, rest.dropWhile isDigitChar)
    else
      match rest with
      | 'f' :: rest2 =>
        if headIsDigit rest2 then
          some ('k' :: 'f' :: rest2.takeWhile isDigitChar, rest2.dropWhile isDigitChar)
        else none
      | 'o' :: rest2 =>
        if headIsDigit rest2 then
          some ('k' :: 'o' :: rest2.takeWhile isDigitChar, rest2.dropWhile isDigitChar)
        else none
      | _ => none
  | 'K' :: rest =>
    if headIsDigit rest then
      some ('K' :: rest.takeWhile isDigitChar, rest.dropWhile isDigitChar)
    else none
  | _ => none

/-- Embeds group 1 of TIMING_REGEX: a karaoke tag followed by a greedy run
of letters, the sung syllable.  Returns the matched text and the rest. -/
def matchKaraokeText : List Char → Option (List Char × List Char)
  | c1 :: c2 :: rest =>
    if c1 = '{' && c2 = '\\' then
      match markerDigits rest with
      | some (md, r2) =>
        match r2 with
        | c3 :: r3 =>
          if c3 = '}' then
            some (c1 :: c2 :: (md ++ c3 :: r3.takeWhile isSyllableChar),
                  r3.dropWhile isSyllableChar)
          else none
        | [] => none
      | none => none
    else none
  | _ => none

/-- Embeds group 2 of TIMING_REGEX: a karaoke tag whose bracketed body has
further non-brace content before the closing brace.  Returns the matched
text and the rest. -/
def matchTimingOnly : List Char → Option (List Char × List Char)
  | c1 :: c2 :: rest =>
    if c1 = '{' && c2 = '\\' then
      match markerDigits rest with
      | some (md, r2) =>
        match r2.dropWhile (fun c => c ≠ '}') with
        | c3 :: r3 =>
          if c3 = '}' then
            some (c1 :: c2 :: (md ++ r2.takeWhile (fun c => c ≠ '}') ++ [c3]), r3)
          else none
        | [] => none
      | none => none
    else none
  | _ => none

/-- Embeds re.findall(TIMING_REGEX, text): the scan tries group 1 then
group 2 at each position, emits the pair of group texts on a match and
resumes after it, and advances one character on failure.  The fuel
argument bounds the recursion; findAll supplies the input length, which
suffices because every step consumes at least one character. -/
def findAllAux : Nat → List Char → List (List Char × List Char)
  | 0, _ => []
  | _ + 1, [] => []
  | fuel + 1, c :: rest =>
    match matchKaraokeText (c :: rest) with
    | some (m, r) => (m, []) :: findAllAux fuel r
    | none =>
      match matchTimingOnly (c :: rest) with
      | some (m, r) => ([], m) :: findAllAux fuel r
      | none => findAllAux fuel rest

/-- All matches of TIMING_REGEX in the given characters, as pairs of the
two group texts. -/
def findAll (s : List Char) : List (List Char × List Char) :=
  findAllAux s.length s

/-- Value of Python int() on a digit string (lines 55-56 first strip
everything but digits, so the argument is a pure digit list). -/
def digitsToNat (s : List Char) : Nat :=
  s.foldl (fun acc c => 10 * acc + (c.toNat - '0'.toNat)) 0

/-- Embeds the loop of karaluxer.py lines 45-56: each findall pair is
turned into a (duration in centiseconds, optional sound) syllable.  A
group-1 match is split at the closing brace into the timing part and the
sound text; a group-2 match takes the segment between the first two
backslashes as its timing part and carries no sound; a pair with both
groups empty would print a warning and be skipped (that warning is
collected in the second component). -/
def buildSyllables : List (List Char × List Char) → List (Nat × Option String) × List String
  | [] => ([], [])
  | (soundLine, timingLine) :: rest =>
    let (syls, warns) := buildSyllables rest
    if soundLine ≠ [] then
      let timing := soundLine.takeWhile (fun c => c ≠ '}')
      let sound := (soundLine.dropWhile (fun c => c ≠ '}')).drop 1
      ((digitsToNat (timing.filter isDigitChar), some (String.mk sound)) :: syls, warns)
    else if timingLine ≠ [] then
      let timing :=
        ((timingLine.dropWhile (fun c => c ≠ '\\')).drop 1).takeWhile (fun c => c ≠ '\\')
      ((digitsToNat (timing.filter isDigitChar), none) :: syls, warns)
    else
      (syls, "Warning: Something unexpected was found in line" :: warns)

/-- Scans one dialogue line's text: the syllable list of lines 44-56
together with the warnings printed while building it. -/
def scanLine (text : String) : List (Nat × Option String) × List String :=
  buildSyllables (findAll text.data)

/-- Embeds line 61: duration = floor((duration_cs / 100) * BEATS_PER_SECOND),
taken exactly over the rationals. -/
def durBeats (durationCs : Nat) : Nat :=
  durationCs * BEATS_PER_SECOND / 100

/-- An output record of the transcoder: a note line or a line separator. -/
inductive URec where
  | note (start : Int) (duration : Int) (pitch : Nat) (sound : String)
  | sep (endBeat : Int)
deriving DecidableEq

/-- Embeds the templates NOTE_LINE = ': {start} {duration} {pitch} {sound} \n'
and SEP_LINE = '- {0} \n' of karaluxer.py lines 13-14. -/
def renderRec : URec → String
  | URec.note start duration pitch sound =>
    ": " ++ toString start ++ " " ++ toString duration ++ " " ++ toString pitch
      ++ " " ++ sound ++ " \n"
  | URec.sep endBeat => "- " ++ toString endBeat ++ " \n"

/-- Embeds the note emission of the loop of lines 59-68: a syllable whose
sound is truthy in Python (neither None nor the empty string) emits a note
at the current beat with duration durBeats - 1 and pitch 19; every
syllable advances the cursor by durBeats. -/
def lineNotes (currentBeat : Int) : List (Nat × Option String) → List URec
  | [] => []
  | (durationCs, sound) :: rest =>
    (match sound with
     | some s =>
       if s.isEmpty then []
       else [URec.note currentBeat ((durBeats durationCs : Int) - 1) 19 s]
     | none => []) ++ lineNotes (currentBeat + durBeats durationCs) rest

/-- The cursor value after the loop of lines 59-68 has consumed the given
syllables. -/
def finalBeat (currentBeat : Int) : List (Nat × Option String) → Int
  | [] => currentBeat
  | (durationCs, _) :: rest => finalBeat (currentBeat + durBeats durationCs) rest

/-- The records one dialogue line contributes: its notes followed by the
line separator at the final cursor value (line 71). -/
def lineRecords (currentBeat : Int) (syls : List (Nat × Option String)) : List URec :=
  lineNotes currentBeat syls ++ [URec.sep (finalBeat currentBeat syls)]

/-- An event of the parsed subtitle document: a Dialogue with its start
time in seconds and its styled text, or any other event kind. -/
inductive AssEvent where
  | dialogue (start : ℚ) (text : String)
  | comment (text : String)
deriving DecidableEq

/-- Embeds line 36: only Dialogue events are kept, in order. -/
def dialogueLines (events : List AssEvent) : List (ℚ × String) :=
  events.filterMap (fun e =>
    match e with
    | AssEvent.dialogue start text => some (start, text)
    | AssEvent.comment _ => none)

/-- Embeds line 41: the initial beat of a line is
floor(line.start.total_seconds() * BEATS_PER_SECOND). -/
def initialBeat (startSeconds : ℚ) : Int :=
  ⌊startSeconds * (BEATS_PER_SECOND : ℚ)⌋

/-- Concatenation of a list of strings. -/
def concatStrings (l : List String) : String :=
  l.foldr (fun a b => a ++ b) ""

/-- The text one dialogue line appends to the output: its records rendered
through the NOTE_LINE and SEP_LINE templates. -/
def lineString (startSeconds : ℚ) (text : String) : String :=
  concatStrings ((lineRecords (initialBeat startSeconds) (scanLine text).1).map renderRec)

/-- Embeds parse_subtitles (lines 19-73) on an already parsed event list:
the dialogue lines are processed in order, each appending its notes and
separator to the growing output string. -/
def parse_subtitles (events : List AssEvent) : String :=
  (dialogueLines events).foldl (fun acc l => acc ++ lineString l.1 l.2) ""

/-- The records of the whole document, line by line. -/
def docRecords (events : List AssEvent) : List URec :=
  (dialogueLines events).flatMap (fun l => lineRecords (initialBeat l.1) (scanLine l.2).1)

/-- Recognizes a line-separator record. -/
def isSepRec : URec → Bool
  | URec.note _ _ _ _ => false
  | URec.sep _ => true

/-- The final cursor of a line is the starting cursor plus the sum of the
per-tag beat durations. -/
theorem finalBeat_eq_add_sum (syls : List (Nat × Option String)) (c : Int) :
    finalBeat c syls = c + (syls.map (fun p => (durBeats p.1 : Int))).sum := by
  induction syls generalizing c with
  | nil => simp [finalBeat]
  | cons p rest ih =>
    cases p with
    | mk d so =>
      simp only [finalBeat, List.map_cons, List.sum_cons, ih]
      ring

/-- Cursor threading splits over list append. -/
theorem finalBeat_append (xs ys : List (Nat × Option String)) (c : Int) :
    finalBeat c (xs ++ ys) = finalBeat (finalBeat c xs) ys := by
  induction xs generalizing c with
  | nil => simp [finalBeat]
  | cons p rest ih =>
    cases p with
    | mk d so =>
      simp only [List.cons_append, finalBeat]
      exact ih _

/-- Note emission splits over list append, the second part starting from
the cursor reached by the first. -/
theorem lineNotes_append (xs ys : List (Nat × Option String)) (c : Int) :
    lineNotes c (xs ++ ys) = lineNotes c xs ++ lineNotes (finalBeat c xs) ys := by
  induction xs generalizing c with
  | nil => simp [lineNotes, finalBeat]
  | cons p rest ih =>
    cases p with
    | mk d so =>
      simp only [List.cons_append, lineNotes, finalBeat, List.append_assoc, List.append_eq]
      rw [ih]

/-- The cursor never moves backwards over the syllables of a line. -/
theorem le_finalBeat (syls : List (Nat × Option String)) (c : Int) :
    c ≤ finalBeat c syls := by
  rw [finalBeat_eq_add_sum]
  have h : (0 : Int) ≤ (syls.map (fun p => (durBeats p.1 : Int))).sum := by
    apply List.sum_nonneg
    intro x hx
    simp only [List.mem_map] at hx
    obtain ⟨p, _, rfl⟩ := hx
    exact Int.natCast_nonneg _
  omega

/-- Every note the transcoder emits carries the fixed pitch 19. -/
theorem pitch_eq_19_of_mem (syls : List (Nat × Option String)) (c st d : Int) (p : Nat)
    (t : String) (h : URec.note st d p t ∈ lineNotes c syls) : p = 19 := by
  induction syls generalizing c with
  | nil => simp [lineNotes] at h
  | cons q rest ih =>
    cases q with
    | mk dc so =>
      simp only [lineNotes, List.mem_append] at h
      rcases h with h | h
      · cases so with
        | none => simp at h
        | some s =>
          by_cases hs : s.isEmpty
          · simp [hs] at h
          · simp only [hs, if_neg, Bool.false_eq_true, not_false_eq_true,
              List.mem_singleton, URec.note.injEq] at h
            exact h.2.2.1
      · exact ih _ h

/-- The notes of a line contain no separator record. -/
theorem countP_isSepRec_lineNotes (syls : List (Nat × Option String)) (c : Int) :
    (lineNotes c syls).countP isSepRec = 0 := by
  induction syls generalizing c with
  | nil => simp [lineNotes]
  | cons q rest ih =>
    cases q with
    | mk dc so =>
      simp only [lineNotes, List.countP_append, ih]
      cases so with
      | none => simp
      | some s =>
        by_cases hs : s.isEmpty <;> simp [hs, isSepRec, List.countP_cons]

/-- Every line contributes exactly one separator record. -/
theorem countP_isSepRec_lineRecords (syls : List (Nat × Option String)) (c : Int) :
    (lineRecords c syls).countP isSepRec = 1 := by
  simp [lineRecords, List.countP_append, countP_isSepRec_lineNotes,
    List.countP_cons, isSepRec]

/-- Over a whole document the separator count equals the line count. -/
theorem countP_isSepRec_flatMap (ls : List (ℚ × String)) :
    ((ls.flatMap (fun l => lineRecords (initialBeat l.1) (scanLine l.2).1)).countP isSepRec)
      = ls.length := by
  induction ls with
  | nil => simp
  | cons l rest ih =>
    simp [List.flatMap_cons, List.countP_append, countP_isSepRec_lineRecords, ih]
    omega

/-- Folding the per-line appends from any accumulator concatenates the
per-line strings after it. -/
theorem foldl_lineString (ls : List (ℚ × String)) (acc : String) :
    ls.foldl (fun a l => a ++ lineString l.1 l.2) acc
      = acc ++ concatStrings (ls.map (fun l => lineString l.1 l.2)) := by
  induction ls generalizing acc with
  | nil => simp [concatStrings]
  | cons l rest ih =>
    simp only [List.foldl_cons, List.map_cons, concatStrings, List.foldr_cons, ih,
      String.append_assoc]

/-- The document output is the concatenation of the outputs of its
dialogue lines, each computed independently of the others. -/
theorem parse_subtitles_eq_concat (events : List AssEvent) :
    parse_subtitles events
      = concatStrings ((dialogueLines events).map (fun l => lineString l.1 l.2)) := by
  rw [parse_subtitles, foldl_lineString]
  simp

/-- A successful group-1 match is a non-empty string. -/
theorem matchKaraokeText_ne_nil {s m r : List Char}
    (h : matchKaraokeText s = some (m, r)) : m ≠ [] := by
  match s with
  | [] => simp [matchKaraokeText] at h
  | [c] => simp [matchKaraokeText] at h
  | c1 :: c2 :: rest =>
    simp only [matchKaraokeText] at h
    split at h
    · cases hmd : markerDigits rest with
      | none => rw [hmd] at h; simp at h
      | some pr =>
        rcases pr with ⟨md, r2⟩
        rw [hmd] at h
        cases r2 with
        | nil => simp at h
        | cons c3 r3 =>
          simp only at h
          split at h
          · simp only [Option.some.injEq, Prod.mk.injEq] at h
            rw [← h.1]
            simp
          · simp at h
    · simp at h

/-- A successful group-2 match is a non-empty string. -/
theorem matchTimingOnly_ne_nil {s m r : List Char}
    (h : matchTimingOnly s = some (m, r)) : m ≠ [] := by
  match s with
  | [] => simp [matchTimingOnly] at h
  | [c] => simp [matchTimingOnly] at h
  | c1 :: c2 :: rest =>
    simp only [matchTimingOnly] at h
    split at h
    · cases hmd : markerDigits rest with
      | none => rw [hmd] at h; simp at h
      | some pr =>
        rcases pr with ⟨md, r2⟩
        rw [hmd] at h
        simp only at h
        cases hdw : r2.dropWhile (fun c => c ≠ '}') with
        | nil => rw [hdw] at h; simp at h
        | cons c3 r3 =>
          rw [hdw] at h
          simp only at h
          split at h
          · simp only [Option.some.injEq, Prod.mk.injEq] at h
            rw [← h.1]
            simp
          · simp at h
    · simp at h

/-- Every pair that the scan of TIMING_REGEX produces has a non-empty
group: the unreachable else branch of lines 51-53 is indeed unreachable. -/
theorem findAllAux_mem_ne_nil (fuel : Nat) :
    ∀ (s g1 g2 : List Char), (g1, g2) ∈ findAllAux fuel s → g1 ≠ [] ∨ g2 ≠ [] := by
  induction fuel with
  | zero =>
    intro s g1 g2 h
    simp [findAllAux] at h
  | succ f ih =>
    intro s g1 g2 h
    cases s with
    | nil => simp [findAllAux] at h
    | cons c rest =>
      simp only [findAllAux] at h
      cases hA : matchKaraokeText (c :: rest) with
      | some pr =>
        rcases pr with ⟨m, r⟩
        rw [hA] at h
        simp only [List.mem_cons, Prod.mk.injEq] at h
        rcases h with ⟨hg1, _⟩ | h
        · exact Or.inl (hg1 ▸ matchKaraokeText_ne_nil hA)
        · exact ih r g1 g2 h
      | none =>
        rw [hA] at h
        cases hB : matchTimingOnly (c :: rest) with
        | some pr =>
          rcases pr with ⟨m, r⟩
          rw [hB] at h
          simp only [List.mem_cons, Prod.mk.injEq] at h
          rcases h with ⟨_, hg2⟩ | h
          · exact Or.inr (hg2 ▸ matchTimingOnly_ne_nil hB)
          · exact ih r g1 g2 h
        | none =>
          rw [hB] at h
          exact ih rest g1 g2 h

/-- Building syllables from pairs that never have both groups empty
produces no warnings. -/
theorem buildSyllables_warns_nil (pairs : List (List Char × List Char))
    (hp : ∀ g1 g2, (g1, g2) ∈ pairs → g1 ≠ [] ∨ g2 ≠ []) :
    (buildSyllables pairs).2 = [] := by
  induction pairs with
  | nil => rfl
  | cons pr rest ih =>
    rcases pr with ⟨g1, g2⟩
    have hrest : ∀ a b, (a, b) ∈ rest → a ≠ [] ∨ b ≠ [] := by
      intro a b hab
      exact hp a b (List.mem_cons_of_mem _ hab)
    have h12 := hp g1 g2 (List.mem_cons_self _ _)
    rcases hsw : buildSyllables rest with ⟨syls, warns⟩
    have hw : warns = [] := by
      have := ih hrest
      rw [hsw] at this
      exact this
    by_cases h1 : g1 = []
    · by_cases h2 : g2 = []
      · rcases h12 with h | h <;> exact absurd (by assumption) h
      · simp [buildSyllables, hsw, h1, h2, hw]
    · simp [buildSyllables, hsw, h1, hw]

/-- C1 counterexample: on the line starting at 1.0 seconds with one
karaoke tag of 200 centiseconds and text la followed by one pure-timing
tag of 50 centiseconds, the transcoder's records are the note
(start 20, duration 39, pitch 19, text la) followed by a separator at
beat 70, and 70 is not the 60 the claim states. -/
theorem c1_counterexample :
    lineRecords (initialBeat 1) (scanLine "\x7b\\k200\x7dla\x7b\\k50\\fad\x7d").1
      = [URec.note 20 39 19 "la", URec.sep 70] ∧
    (URec.sep 70 : URec) ≠ URec.sep 60 := by
  constructor
  · have h : initialBeat 1 = 20 := by norm_num [initialBeat, BEATS_PER_SECOND]
    rw [h]
    decide
  · decide

/-- C1 amended: for that input line the output text is the note record
followed by the separator record at end beat 70, each rendered with a
trailing space before its newline. -/
theorem c1_amended :
    parse_subtitles [AssEvent.dialogue 1 "\x7b\\k200\x7dla\x7b\\k50\\fad\x7d"]
      = ": 20 39 19 la \n- 70 \n" := by
  have h : initialBeat 1 = 20 := by norm_num [initialBeat, BEATS_PER_SECOND]
  simp only [parse_subtitles, dialogueLines, List.filterMap, List.foldl, lineString, h]
  decide

/-- C2: a scanned tag that carries non-empty text, wherever it sits in the
line, emits a note whose start is the cursor reached at that point and
whose duration is exactly its beat duration minus one, the subtraction
taken over the integers so a zero beat duration yields minus one. -/
theorem c2_note_emission (currentBeat : Int) (pre post : List (Nat × Option String))
    (d : Nat) (s : String) (hs : s ≠ "") :
    lineNotes currentBeat (pre ++ (d, some s) :: post)
      = lineNotes currentBeat pre
        ++ URec.note (finalBeat currentBeat pre) ((durBeats d : Int) - 1) 19 s
          :: lineNotes (finalBeat currentBeat pre + durBeats d) post := by
  have hs' : s.isEmpty = false := by
    cases hsi : s.isEmpty with
    | false => rfl
    | true => exact absurd ((String.isEmpty_iff _).mp hsi) hs
  rw [lineNotes_append]
  simp [lineNotes, hs']

/-- Witness for C2 at a concrete input: a 3-centisecond tag has beat
duration 0 and its note is emitted with duration minus one. -/
theorem c2_note_emission_witness :
    ("a" : String) ≠ "" ∧ lineNotes 0 [(3, some "a")] = [URec.note 0 (-1) 19 "a"] :=
  ⟨by decide, by
    have h := c2_note_emission 0 [] [] 3 "a" (by decide)
    simpa using h⟩

/-- C3: the document output is the concatenation of per-line strings,
each determined only by that line's start time and text, so two documents
whose n-th dialogue lines agree produce the same n-th line output. -/
theorem c3_line_independence (evs₁ evs₂ : List AssEvent) (n : Nat)
    (h : (dialogueLines evs₁).get? n = (dialogueLines evs₂).get? n) :
    parse_subtitles evs₁
      = concatStrings ((dialogueLines evs₁).map (fun l => lineString l.1 l.2)) ∧
    ((dialogueLines evs₁).map (fun l => lineString l.1 l.2)).get? n
      = ((dialogueLines evs₂).map (fun l => lineString l.1 l.2)).get? n := by
  refine ⟨parse_subtitles_eq_concat evs₁, ?_⟩
  rw [List.get?_map, List.get?_map, h]

/-- Witness for C3 at concrete documents that share their first dialogue
line but differ in surrounding comments. -/
theorem c3_line_independence_witness :
    (dialogueLines [AssEvent.comment "x", AssEvent.dialogue 2 "ab"]).get? 0
      = (dialogueLines [AssEvent.dialogue 2 "ab"]).get? 0 ∧
    (parse_subtitles [AssEvent.comment "x", AssEvent.dialogue 2 "ab"]
      = concatStrings ((dialogueLines [AssEvent.comment "x", AssEvent.dialogue 2 "ab"]).map
          (fun l => lineString l.1 l.2)) ∧
    ((dialogueLines [AssEvent.comment "x", AssEvent.dialogue 2 "ab"]).map
        (fun l => lineString l.1 l.2)).get? 0
      = ((dialogueLines [AssEvent.dialogue 2 "ab"]).map
          (fun l => lineString l.1 l.2)).get? 0) :=
  ⟨rfl, c3_line_independence _ _ 0 rfl⟩

/-- C4 counterexample: the line contains the malformed fragment between
the first brace pair (a karaoke marker with no digits), yet the scan
emits no warning at all while still skipping the fragment and processing
the later tag. -/
theorem c4_counterexample :
    (scanLine "\x7b\\kq\x7d\x7b\\k10\x7dab").2 = [] ∧
    (scanLine "\x7b\\kq\x7d\x7b\\k10\x7dab").1 = [(10, some "ab")] := by
  decide

/-- C4 amended: malformed fragments are omitted from the output and never
abort the line, but they are skipped silently: the warning list of a scan
is empty for every input, because the warning branch of the loop is
unreachable. -/
theorem c4_amended (text : String) :
    (scanLine text).2 = [] ∧
    (scanLine "\x7b\\kq\x7dxy\x7b\\k7\x7dcd").1 = [(7, some "cd")] := by
  constructor
  · apply buildSyllables_warns_nil
    intro g1 g2 hmem
    exact findAllAux_mem_ne_nil _ _ g1 g2 hmem
  · decide

/-- C5: the separator of every line sits at the line's initial beat plus
the sum of the beat durations of all scanned tags, text-carrying or not. -/
theorem c5_separator_value (startSeconds : ℚ) (text : String) :
    lineRecords (initialBeat startSeconds) (scanLine text).1
      = lineNotes (initialBeat startSeconds) (scanLine text).1
        ++ [URec.sep (initialBeat startSeconds
            + ((scanLine text).1.map (fun p => (durBeats p.1 : Int))).sum)] := by
  rw [lineRecords, finalBeat_eq_add_sum]

/-- C6: the document emits exactly one separator per dialogue event,
non-dialogue events contribute nothing, and a line whose text scans to no
tags emits only its separator at the initial beat. -/
theorem c6_separator_count (events : List AssEvent) (ctext : String)
    (startSeconds : ℚ) (text : String) (h : (scanLine text).1 = []) :
    (docRecords events).countP isSepRec = (dialogueLines events).length ∧
    docRecords (AssEvent.comment ctext :: events) = docRecords events ∧
    lineRecords (initialBeat startSeconds) (scanLine text).1
      = [URec.sep (initialBeat startSeconds)] := by
  refine ⟨countP_isSepRec_flatMap (dialogueLines events), ?_, ?_⟩
  · simp [docRecords, dialogueLines]
  · rw [h]
    simp [lineRecords, lineNotes, finalBeat]

/-- Witness for C6 on a concrete document and a tagless line. -/
theorem c6_separator_count_witness :
    (scanLine "hello").1 = [] ∧
    ((docRecords [AssEvent.dialogue 0 "", AssEvent.comment "c"]).countP isSepRec
        = (dialogueLines [AssEvent.dialogue 0 "", AssEvent.comment "c"]).length ∧
      docRecords (AssEvent.comment "z" :: [AssEvent.dialogue 0 "", AssEvent.comment "c"])
        = docRecords [AssEvent.dialogue 0 "", AssEvent.comment "c"] ∧
      lineRecords (initialBeat 3) (scanLine "hello").1 = [URec.sep (initialBeat 3)]) :=
  ⟨by decide, c6_separator_count _ "z" 3 "hello" (by decide)⟩

/-- C7: a pure-timing tag (scanned without text) emits no note but still
advances the cursor by its beat duration, shifting every later note and
the separator; the scan of a concrete timing-only tag indeed carries no
text. -/
theorem c7_pure_timing_tag (currentBeat : Int) (d : Nat)
    (rest : List (Nat × Option String)) :
    lineNotes currentBeat ((d, none) :: rest)
      = lineNotes (currentBeat + durBeats d) rest ∧
    finalBeat currentBeat ((d, none) :: rest)
      = finalBeat (currentBeat + durBeats d) rest ∧
    (scanLine "\x7b\\k50\\fad\x7d\x7b\\k10\x7dab").1 = [(50, none), (10, some "ab")] :=
  ⟨rfl, rfl, by decide⟩

/-- C8 counterexample: the rendered note and separator lines carry a
trailing space before the newline, so they do not consist exactly of the
claimed template followed by a newline. -/
theorem c8_counterexample :
    parse_subtitles [AssEvent.dialogue 0 "\x7b\\k100\x7dgo"] = ": 0 19 19 go \n- 20 \n" ∧
    parse_subtitles [AssEvent.dialogue 0 "\x7b\\k100\x7dgo"] ≠ ": 0 19 19 go\n- 20\n" := by
  have h : initialBeat 0 = 0 := by norm_num [initialBeat]
  constructor
  · simp only [parse_subtitles, dialogueLines, List.filterMap, List.foldl, lineString, h]
    decide
  · simp only [parse_subtitles, dialogueLines, List.filterMap, List.foldl, lineString, h]
    decide

/-- C8 amended: every note line is the colon template followed by a space
and a newline, every separator line is the dash template followed by a
space and a newline, and every emitted note has pitch 19. -/
theorem c8_amended :
    (∀ (st d : Int) (p : Nat) (t : String),
        renderRec (URec.note st d p t)
          = ": " ++ toString st ++ " " ++ toString d ++ " " ++ toString p
              ++ " " ++ t ++ " \n") ∧
    (∀ e : Int, renderRec (URec.sep e) = "- " ++ toString e ++ " \n") ∧
    (∀ (c : Int) (syls : List (Nat × Option String)) (st d : Int) (p : Nat) (t : String),
        URec.note st d p t ∈ lineNotes c syls → p = 19) :=
  ⟨fun _ _ _ _ => rfl, fun _ => rfl,
   fun c syls st d p t h => pitch_eq_19_of_mem syls c st d p t h⟩

/-- Witness for C8 amended: the pitch invariant applied to a concrete
emitted note. -/
theorem c8_amended_witness :
    URec.note 5 3 19 "x" ∈ lineNotes 5 [(20, some "x")] ∧ (19 : Nat) = 19 :=
  ⟨by decide, c8_amended.2.2 5 [(20, some "x")] 5 3 19 "x" (by decide)⟩

/-- C9: every tag advances the cursor by a non-negative amount, the
cursor over a line is monotone under extension, and the final beat never
falls below the initial beat. -/
theorem c9_cursor_monotone (currentBeat : Int) (pre post : List (Nat × Option String))
    (d : Nat) :
    (0 : Int) ≤ (durBeats d : Int) ∧
    finalBeat currentBeat pre ≤ finalBeat currentBeat (pre ++ post) ∧
    currentBeat ≤ finalBeat currentBeat post := by
  refine ⟨Int.natCast_nonneg _, ?_, le_finalBeat post currentBeat⟩
  rw [finalBeat_append]
  exact le_finalBeat post _

/-- C10: a karaoke tag immediately followed by a non-letter scans with an
empty text fragment, and such a syllable emits no note while still
advancing the cursor by its beat duration. -/
theorem c10_empty_sound_tag (currentBeat : Int) (d : Nat)
    (rest : List (Nat × Option String)) :
    (scanLine "\x7b\\k10\x7d\x7b\\k20\x7dab").1 = [(10, some ""), (20, some "ab")] ∧
    lineNotes currentBeat ((d, some "") :: rest)
      = lineNotes (currentBeat + durBeats d) rest ∧
    finalBeat currentBeat ((d, some "") :: rest)
      = finalBeat (currentBeat + durBeats d) rest :=
  ⟨by decide, rfl, rfl⟩

end KaraLuxer
